import Mathlib

/-!
Verification of the geeagri temporal-compositing and harmonic-regression core.

The repository's public surface (README, module docs) exposes
`RegularTimeseries(image_collection, interval, window)` with
`get_regular_timeseries()`, and
`HarmonicRegression(collection, ref_date, band, order)` with
`get_harmonic_coeffs()` and `get_fitted_harmonics(harmonic_coeffs)`.
The algorithm bodies themselves are specified in the design document; the
definitions below embed that design shallowly: timestamps are rationals
(days) for the compositing stage and reals (fractional years) for the
harmonic stage, a pixel value is `Option`-valued (`none` = invalid/masked),
and fallible operations return `Except`.
-/

namespace Geeagri

open Matrix

/-- Modelled from the spec: the fatal error taxonomy of the core (the
per-pixel InsufficientData condition is non-fatal and is represented by
`none` pixel values, not by this type). -/
inductive AlgError where
  | invalidParameter
  | spatialMismatch
  deriving DecidableEq, Repr

/-- Modelled from the spec: a Frame is one timestamped multi-band raster
snapshot with per-pixel validity; `t` is the timestamp in days, and
`val b p = none` marks pixel `p` invalid for band `b`. -/
structure Frame (B P : Type) where
  t : ℚ
  val : B → P → Option ℚ

/-- Modelled from the spec: membership of a source timestamp `ts` in the
closed window `[t - w/2, t + w/2]` around a target date `t`. -/
def inWindow (t w ts : ℚ) : Prop :=
  t - w / 2 ≤ ts ∧ ts ≤ t + w / 2

instance (t w ts : ℚ) : Decidable (inWindow t w ts) := by
  unfold inWindow; infer_instance

/-- Modelled from the spec: sliding-window accumulation step - fold one
source frame into the running (sum, count) of valid in-window values of
band `b` at pixel `p`. -/
def accumPixel {B P : Type} (t w : ℚ) (b : B) (p : P)
    (acc : ℚ × ℕ) (f : Frame B P) : ℚ × ℕ :=
  if inWindow t w f.t then
    match f.val b p with
    | some v => (acc.1 + v, acc.2 + 1)
    | none => acc
  else acc

/-- Modelled from the spec: per-pixel aggregation at target date `t` -
the unweighted arithmetic mean of the valid in-window values, or `none`
when the window holds no valid contributor for this pixel. -/
def aggregate {B P : Type} (frames : List (Frame B P)) (t w : ℚ)
    (b : B) (p : P) : Option ℚ :=
  let acc := frames.foldl (accumPixel t w b p) (0, 0)
  if acc.2 = 0 then none else some (acc.1 / acc.2)

/-- Modelled from the spec: the output composite frame for one target
date, tagged with the target date as its timestamp. -/
def composite {B P : Type} (frames : List (Frame B P)) (w t : ℚ) :
    Frame B P :=
  ⟨t, fun b p => aggregate frames t w b p⟩

/-- Modelled from the spec: the number of target dates covering
`[start, endd]` at the given interval. -/
def nTargets (start endd interval : ℚ) : ℕ :=
  (⌊(endd - start) / interval⌋).toNat + 1

/-- Modelled from the spec: the target date sequence
`start, start + interval, start + 2 * interval, ...`. -/
def targetDates (start endd interval : ℚ) : List ℚ :=
  (List.range (nTargets start endd interval)).map
    (fun k : ℕ => start + (k : ℚ) * interval)

/-- Modelled from the spec: RegularTimeseries over an explicit target
range; parameters are validated up front and the composite collection is
produced only on valid parameters. -/
def regularTimeseriesOn {B P : Type} (start endd interval window : ℚ)
    (frames : List (Frame B P)) : Except AlgError (List (Frame B P)) :=
  if interval ≤ 0 ∨ window ≤ 0 ∨ endd < start then
    .error .invalidParameter
  else
    .ok ((targetDates start endd interval).map (composite frames window))

/-- Modelled from the spec and the README interface: the public
`get_regular_timeseries` takes only the collection, the interval and the
window; the target range is derived from the collection's earliest and
latest frame timestamps. An empty collection has no derivable range and
is rejected. -/
def getRegularTimeseries {B P : Type} (frames : List (Frame B P))
    (interval window : ℚ) : Except AlgError (List (Frame B P)) :=
  match (frames.map Frame.t).min?, (frames.map Frame.t).max? with
  | some a, some z => regularTimeseriesOn a z interval window frames
  | _, _ => .error .invalidParameter

/-- The valid in-window values of band `b` at pixel `p`, as a list in
source order: the reference form the aggregation fold is checked
against. -/
def valsIn {B P : Type} (frames : List (Frame B P)) (t w : ℚ)
    (b : B) (p : P) : List ℚ :=
  (frames.filter (fun f => decide (inWindow t w f.t))).filterMap
    (fun f => f.val b p)

/-- Modelled from the spec: a frame of the harmonic-regression stage;
its timestamp is measured in fractional (continuous) years, so the time
axis `t_years = timestamp - reference_date` is fractional years. -/
structure HFrame (B P : Type) where
  t : ℝ
  val : B → P → Option ℝ

/-- Modelled from the spec: the harmonic design (basis) vector
`[1, t, cos(2 pi 1 t), sin(2 pi 1 t), ..., cos(2 pi order t),
sin(2 pi order t)]`, built frequency pair by frequency pair. -/
noncomputable def hBasisList (order : ℕ) (t : ℝ) : List ℝ :=
  [1, t] ++ (List.range order).flatMap
    (fun k => [Real.cos (2 * Real.pi * (k + 1) * t),
               Real.sin (2 * Real.pi * (k + 1) * t)])

/-- Modelled from the spec: the design-matrix entry for basis index `j`
at time `t` (in years from the reference date). -/
noncomputable def hBasis (order : ℕ) (t : ℝ) (j : Fin (2 * order + 2)) : ℝ :=
  (hBasisList order t).getD j 0

/-- Modelled from the spec: the design matrix shared by all pixels,
one row per observation time. -/
noncomputable def designMatrix (order : ℕ) {m : ℕ} (times : Fin m → ℝ) :
    Matrix (Fin m) (Fin (2 * order + 2)) ℝ :=
  Matrix.of fun i j => hBasis order (times i) j

/-- Modelled from the spec: ordinary least squares through the normal
equations, `(X^T X)^(-1) X^T y`. -/
noncomputable def olsFit {m n : ℕ} (X : Matrix (Fin m) (Fin n) ℝ)
    (y : Fin m → ℝ) : Fin n → ℝ :=
  ((Xᵀ * X)⁻¹).mulVec (Xᵀ.mulVec y)

/-- The per-pixel sum of squared residuals minimized by the fit. -/
noncomputable def rss {m n : ℕ} (X : Matrix (Fin m) (Fin n) ℝ)
    (y : Fin m → ℝ) (c : Fin n → ℝ) : ℝ :=
  ∑ i, (y i - X.mulVec c i) ^ 2

/-- Modelled from the spec: the valid observations of band `b` at pixel
`p`, as (t_years, value) pairs; frames where the pixel is invalid are
skipped. -/
noncomputable def observations {B P : Type} (frames : List (HFrame B P))
    (ref : ℝ) (b : B) (p : P) : List (ℝ × ℝ) :=
  frames.filterMap (fun f => (f.val b p).map (fun v => (f.t - ref, v)))

/-- Modelled from the spec: the normal matrix `X^T X` of the harmonic
design over a list of (t_years, value) observations, accumulated
observation by observation. -/
noncomputable def normalMatrix (order : ℕ) (obs : List (ℝ × ℝ)) :
    Matrix (Fin (2 * order + 2)) (Fin (2 * order + 2)) ℝ :=
  Matrix.of fun j k =>
    (obs.map (fun o => hBasis order o.1 j * hBasis order o.1 k)).sum

/-- Modelled from the spec: the moment vector `X^T y` of the harmonic
design over a list of (t_years, value) observations. -/
noncomputable def momentVector (order : ℕ) (obs : List (ℝ × ℝ)) :
    Fin (2 * order + 2) → ℝ :=
  fun j => (obs.map (fun o => hBasis order o.1 j * o.2)).sum

open Classical in
/-- Modelled from the spec: the per-pixel harmonic fit through the
normal equations. A pixel with fewer valid observations than the
`2 * order + 2` coefficients is under-determined and its coefficient
vector is `none`; a pixel whose normal matrix is singular (numerical
degeneracy, e.g. duplicate time values) is likewise marked invalid
rather than given a degenerate solution. -/
noncomputable def fitPixel {B P : Type} (order : ℕ) (ref : ℝ) (b : B)
    (frames : List (HFrame B P)) (p : P) : Option (List ℝ) :=
  if (observations frames ref b p).length < 2 * order + 2 then none
  else if IsUnit (normalMatrix order (observations frames ref b p)).det then
    some (List.ofFn
      ((normalMatrix order (observations frames ref b p))⁻¹.mulVec
        (momentVector order (observations frames ref b p))))
  else none

/-- Modelled from the spec: the public `get_harmonic_coeffs`; a
non-positive order is rejected up front, otherwise the full coefficient
raster (one optional coefficient list per pixel) is produced. -/
noncomputable def getHarmonicCoeffs {B P : Type} (order : ℕ) (ref : ℝ)
    (b : B) (frames : List (HFrame B P)) :
    Except AlgError (P → Option (List ℝ)) :=
  if order = 0 then .error .invalidParameter
  else .ok (fun p => fitPixel order ref b frames p)

/-- Modelled from the spec: evaluation of the fitted model at one time
(in years from the reference date): the dot product of the stored
coefficients with the basis vector. -/
noncomputable def predictPixel (order : ℕ) (coeffs : List ℝ) (ty : ℝ) : ℝ :=
  ((hBasisList order ty).zipWith (· * ·) coeffs).sum

/-- Modelled from the spec: `predict(coefficients, query_date)` - a grid
of reconstructed values; pixels with invalid coefficients stay invalid. -/
noncomputable def predictGrid {P : Type} (order : ℕ) (ref : ℝ)
    (coeffs : P → Option (List ℝ)) (d : ℝ) : P → Option ℝ :=
  fun p => (coeffs p).map (fun c => predictPixel order c (d - ref))

/-- Modelled from the spec and the module docs: the HarmonicRegression
object state `(collection, ref_date, band, order)`. -/
structure HRState (B P : Type) where
  collection : List (HFrame B P)
  refDate : ℝ
  band : B
  order : ℕ

/-- Prediction through a HarmonicRegression object: only the reference
date and the order enter the basis; the stored collection does not. -/
noncomputable def predictHR {B P : Type} (s : HRState B P)
    (coeffs : P → Option (List ℝ)) (d : ℝ) : P → Option ℝ :=
  predictGrid s.order s.refDate coeffs d

/-- Modelled from the spec: `get_fitted_harmonics(harmonic_coeffs)` maps
`predict` over every frame timestamp of the stored collection, keeping
the timestamps. -/
noncomputable def getFittedHarmonics {B P : Type} [DecidableEq B]
    (s : HRState B P) (coeffs : P → Option (List ℝ)) : List (HFrame B P) :=
  s.collection.map (fun f =>
    ⟨f.t, fun b p =>
      if b = s.band then predictGrid s.order s.refDate coeffs f.t p
      else none⟩)

/-- A concrete single-band single-pixel fixture collection for the
compositing stage. -/
def frW : List (Frame Unit Unit) :=
  [⟨4, fun _ _ => some 1⟩, ⟨0, fun _ _ => some 2⟩, ⟨7, fun _ _ => none⟩]

/-- A concrete fixture collection for the harmonic stage: four valid
quarterly samples of one pixel. -/
noncomputable def hfrW : List (HFrame Unit Unit) :=
  [⟨0, fun _ _ => some 1⟩, ⟨1 / 4, fun _ _ => some 2⟩,
   ⟨1 / 2, fun _ _ => some 3⟩, ⟨3 / 4, fun _ _ => some 4⟩]

/-- A concrete fixture collection for the harmonic stage whose single
pixel is everywhere invalid. -/
noncomputable def hfrEmptyW : List (HFrame Unit Unit) :=
  [⟨0, fun _ _ => none⟩, ⟨1 / 4, fun _ _ => none⟩]

/-- Four concrete quarterly sample times (in years), spanning one period
of the annual harmonic. -/
noncomputable def tms4 : Fin 4 → ℝ := ![-(1 / 2), -(1 / 4), 0, 1 / 4]

/-- A concrete two-pixel harmonic fixture: pixel `true` is always
invalid, pixel `false` has four valid observations at distinct
quarterly times. -/
noncomputable def hfrBoolW : List (HFrame Unit Bool) :=
  [⟨-(1 / 2), fun _ p => if p then none else some 1⟩,
   ⟨-(1 / 4), fun _ p => if p then none else some 2⟩,
   ⟨0, fun _ p => if p then none else some 3⟩,
   ⟨1 / 4, fun _ p => if p then none else some 4⟩]

lemma valsIn_nil {B P : Type} (t w : ℚ) (b : B) (p : P) :
    valsIn ([] : List (Frame B P)) t w b p = [] := rfl

lemma valsIn_cons {B P : Type} (f : Frame B P) (fs : List (Frame B P))
    (t w : ℚ) (b : B) (p : P) :
    valsIn (f :: fs) t w b p =
      (if inWindow t w f.t then
        (match f.val b p with
         | some v => v :: valsIn fs t w b p
         | none => valsIn fs t w b p)
      else valsIn fs t w b p) := by
  by_cases h : inWindow t w f.t
  · simp only [valsIn, List.filter_cons, h, decide_True, if_true]
    cases hv : f.val b p <;> simp [List.filterMap_cons, hv]
  · simp [valsIn, List.filter_cons, h]

lemma foldl_accumPixel {B P : Type} (t w : ℚ) (b : B) (p : P)
    (frames : List (Frame B P)) (s : ℚ) (n : ℕ) :
    frames.foldl (accumPixel t w b p) (s, n) =
      (s + (valsIn frames t w b p).sum,
       n + (valsIn frames t w b p).length) := by
  induction frames generalizing s n with
  | nil => simp [valsIn_nil]
  | cons f fs ih =>
    rw [List.foldl_cons, valsIn_cons]
    by_cases h : inWindow t w f.t
    · simp only [accumPixel, h, if_true]
      cases hv : f.val b p with
      | some v =>
        rw [ih]
        simp [add_assoc, add_comm v, Nat.add_comm]
      | none => rw [ih]
    · simp only [accumPixel, h, if_false]
      rw [ih]

lemma aggregate_eq_valsIn {B P : Type} (frames : List (Frame B P))
    (t w : ℚ) (b : B) (p : P) :
    aggregate frames t w b p =
      (if valsIn frames t w b p = [] then none
       else some ((valsIn frames t w b p).sum /
                  (valsIn frames t w b p).length)) := by
  unfold aggregate
  rw [foldl_accumPixel]
  simp [List.length_eq_zero]

lemma valsIn_eq_nil {B P : Type} {frames : List (Frame B P)} {t w : ℚ}
    {b : B} {p : P}
    (h : ∀ f ∈ frames, inWindow t w f.t → f.val b p = none) :
    valsIn frames t w b p = [] := by
  induction frames with
  | nil => rfl
  | cons f fs ih =>
    rw [valsIn_cons]
    by_cases hw : inWindow t w f.t
    · rw [if_pos hw, h f (List.mem_cons_self f fs) hw]
      exact ih fun g hg => h g (List.mem_cons_of_mem f hg)
    · rw [if_neg hw]
      exact ih fun g hg => h g (List.mem_cons_of_mem f hg)

lemma nTargets_cast {start endd interval : ℚ} (hi : 0 < interval)
    (he : start ≤ endd) :
    (nTargets start endd interval : ℤ) = ⌊(endd - start) / interval⌋ + 1 := by
  have h0 : (0 : ℤ) ≤ ⌊(endd - start) / interval⌋ :=
    Int.floor_nonneg.mpr (div_nonneg (sub_nonneg.mpr he) hi.le)
  unfold nTargets
  push_cast [Int.toNat_of_nonneg h0]
  ring

lemma targetDates_getElem? (start endd interval : ℚ) (k : ℕ)
    (hk : k < nTargets start endd interval) :
    (targetDates start endd interval)[k]? = some (start + k * interval) := by
  have hk2 : k < (List.range (nTargets start endd interval)).length := by
    simpa using hk
  rw [targetDates, List.getElem?_map, List.getElem?_eq_getElem hk2,
    List.getElem_range]
  rfl

lemma targetDates_pairwise {start endd : ℚ} {interval : ℚ}
    (hi : 0 < interval) :
    (targetDates start endd interval).Pairwise (· < ·) := by
  unfold targetDates
  refine List.Pairwise.map (R := (· < ·)) (S := (· < ·)) _ ?_
    (List.pairwise_lt_range _)
  intro a c hac
  have h1 : (a : ℚ) < (c : ℚ) := by exact_mod_cast hac
  have h2 := mul_lt_mul_of_pos_right h1 hi
  linarith

lemma regularTimeseriesOn_ok {B P : Type} {start endd interval window : ℚ}
    (frames : List (Frame B P)) (hi : 0 < interval) (hw : 0 < window)
    (he : start ≤ endd) :
    regularTimeseriesOn start endd interval window frames =
      .ok ((targetDates start endd interval).map (composite frames window)) := by
  unfold regularTimeseriesOn
  rw [if_neg]
  push_neg
  exact ⟨hi, hw, he⟩

/-- C1: for every target date, band and pixel, the output value is the
unweighted arithmetic mean of the valid values of exactly the source
frames whose timestamps lie in the closed window
`[t - window/2, t + window/2]`; frames outside the window never influence
the result, and a timestamp exactly at a window edge is included. -/
theorem regular_window_mean {B P : Type} (frames : List (Frame B P))
    (t w : ℚ) (b : B) (p : P) :
    (aggregate frames t w b p =
      if valsIn frames t w b p = [] then none
      else some ((valsIn frames t w b p).sum /
                 (valsIn frames t w b p).length))
    ∧ (∀ g : Frame B P, ¬ inWindow t w g.t →
        aggregate (g :: frames) t w b p = aggregate frames t w b p)
    ∧ (0 ≤ w → inWindow t w (t + w / 2) ∧ inWindow t w (t - w / 2)) := by
  refine ⟨aggregate_eq_valsIn frames t w b p, ?_, ?_⟩
  · intro g hg
    rw [aggregate_eq_valsIn, aggregate_eq_valsIn, valsIn_cons, if_neg hg]
  · intro hw
    constructor <;> constructor <;> dsimp only [inWindow] <;> linarith

/-- C1 witness: a frame exactly at the window edge contributes to the
mean, and a frame outside the window does not change the aggregate. -/
theorem regular_window_mean_witness :
    (aggregate [⟨0, fun _ _ => some 1⟩, ⟨5, fun _ _ => some 2⟩]
        (0 : ℚ) 10 () () = some (3 / 2))
    ∧ aggregate (⟨6, fun _ _ => some 100⟩ ::
        [⟨0, fun _ _ => some 1⟩, ⟨5, fun _ _ => some 2⟩]) (0 : ℚ) 10 () () =
      aggregate [⟨0, fun _ _ => some 1⟩, ⟨5, fun _ _ => some 2⟩]
        (0 : ℚ) 10 () ()
    ∧ inWindow 0 10 (0 + 10 / 2) ∧ inWindow 0 10 (0 - 10 / 2) := by
  have h := regular_window_mean
    [(⟨0, fun _ _ => some 1⟩ : Frame Unit Unit), ⟨5, fun _ _ => some 2⟩]
    0 10 () ()
  refine ⟨?_, h.2.1 ⟨6, fun _ _ => some 100⟩ (by norm_num [inWindow]), ?_, ?_⟩
  · have hv : valsIn
        [(⟨0, fun _ _ => some 1⟩ : Frame Unit Unit), ⟨5, fun _ _ => some 2⟩]
        (0 : ℚ) 10 () () = [1, 2] := by
      rw [valsIn_cons, valsIn_cons, valsIn_nil, if_pos (by norm_num [inWindow]),
        if_pos (by norm_num [inWindow])]
    rw [h.1, hv, if_neg (List.cons_ne_nil _ _)]
    norm_num
  · exact ((h.2.2 (by norm_num)).1)
  · exact ((h.2.2 (by norm_num)).2)

/-- C3: the target date sequence is the arithmetic progression
`start, start + interval, ...` of length `floor((endd - start)/interval) + 1`,
strictly ascending; on valid parameters the output collection has exactly
one frame per target date, in that order, each timestamped with its
target date, independent of the source collection. -/
theorem target_sequence_spec (start endd interval : ℚ)
    (hi : 0 < interval) (he : start ≤ endd) :
    (((targetDates start endd interval).length : ℤ) =
        ⌊(endd - start) / interval⌋ + 1)
    ∧ (∀ k : ℕ, k < nTargets start endd interval →
        (targetDates start endd interval)[k]? = some (start + k * interval))
    ∧ (targetDates start endd interval).Pairwise (· < ·)
    ∧ ∀ (B P : Type) (frames : List (Frame B P)) (window : ℚ)
        (out : List (Frame B P)), 0 < window →
        regularTimeseriesOn start endd interval window frames = .ok out →
        out.map Frame.t = targetDates start endd interval := by
  refine ⟨?_, targetDates_getElem? start endd interval, targetDates_pairwise hi, ?_⟩
  · rw [show (targetDates start endd interval).length = nTargets start endd interval from by
        rw [targetDates, List.length_map, List.length_range]]
    exact nTargets_cast hi he
  · intro B P frames window out hw hok
    rw [regularTimeseriesOn_ok frames hi hw he] at hok
    cases hok
    rw [List.map_map]
    exact List.map_id _

/-- C3 witness: with start 0, end 10, interval 3 the targets are
`[0, 3, 6, 9]` and the output of an (empty) source collection is
timestamped with exactly those dates. -/
theorem target_sequence_spec_witness :
    (((targetDates 0 10 3).length : ℤ) = ⌊((10 : ℚ) - 0) / 3⌋ + 1)
    ∧ (targetDates 0 10 3)[2]? = some 6
    ∧ (((targetDates 0 10 3).map
        (composite ([] : List (Frame Unit Unit)) 1)).map Frame.t =
          targetDates 0 10 3) := by
  have h := target_sequence_spec 0 10 3 (by norm_num) (by norm_num)
  have hn : nTargets 0 10 3 = 4 := by
    norm_num [nTargets]
    rfl
  have h2 := h.2.1 2 (by rw [hn]; norm_num)
  push_cast at h2
  norm_num at h2
  refine ⟨h.1, h2, ?_⟩
  exact h.2.2.2 Unit Unit [] 1 _ (by norm_num)
    (regularTimeseriesOn_ok [] (by norm_num) (by norm_num) (by norm_num))

/-- C5: a pixel with zero valid contributing frames in the window is
marked invalid (`none`) in the output frame, never given a fabricated
value, and the condition is non-fatal: the full output collection is
still produced, with that target's frame present. -/
theorem missing_data_propagation {B P : Type} (frames : List (Frame B P))
    (t w : ℚ) (b : B) (p : P)
    (h : ∀ f ∈ frames, inWindow t w f.t → f.val b p = none) :
    aggregate frames t w b p = none
    ∧ (composite frames w t).val b p = none
    ∧ ∀ start endd interval : ℚ, 0 < interval → 0 < w → start ≤ endd →
        regularTimeseriesOn start endd interval w frames =
          .ok ((targetDates start endd interval).map (composite frames w))
        ∧ ((targetDates start endd interval).map
            (composite frames w)).length = nTargets start endd interval := by
  have hagg : aggregate frames t w b p = none := by
    rw [aggregate_eq_valsIn, valsIn_eq_nil h]
    simp
  refine ⟨hagg, hagg, ?_⟩
  intro start endd interval hi hw he
  exact ⟨regularTimeseriesOn_ok frames hi hw he,
    by rw [List.length_map, targetDates, List.length_map, List.length_range]⟩

/-- C5 witness: with one in-window invalid frame and one out-of-window
valid frame, the aggregated pixel is invalid while the output collection
is complete. -/
theorem missing_data_propagation_witness :
    aggregate [(⟨20, fun _ _ => some 5⟩ : Frame Unit Unit),
        ⟨0, fun _ _ => none⟩] (0 : ℚ) 10 () () = none
    ∧ ((targetDates 0 6 3).map
        (composite [(⟨20, fun _ _ => some 5⟩ : Frame Unit Unit),
          ⟨0, fun _ _ => none⟩] 10)).length = nTargets 0 6 3 := by
  have h := missing_data_propagation
    [(⟨20, fun _ _ => some 5⟩ : Frame Unit Unit), ⟨0, fun _ _ => none⟩]
    0 10 () () ?_
  · exact ⟨h.1, (h.2.2 0 6 3 (by norm_num) (by norm_num) (by norm_num)).2⟩
  · intro f hf
    rcases List.mem_cons.mp hf with rfl | hf
    · intro hw
      exact absurd hw (by norm_num [inWindow])
    · rcases List.mem_cons.mp hf with rfl | hf
      · intro _
        rfl
      · exact absurd hf (List.not_mem_nil f)

lemma flatMap_pair_length (l : List ℕ) (f g : ℕ → ℝ) :
    (l.flatMap (fun j => [f j, g j])).length = 2 * l.length := by
  induction l with
  | nil => rfl
  | cons a rest ih =>
    rw [List.flatMap_cons]
    simp only [List.length_append, List.length_cons, List.length_nil, ih]
    omega

lemma hBasisList_length (order : ℕ) (t : ℝ) :
    (hBasisList order t).length = 2 * order + 2 := by
  rw [hBasisList, List.length_append, flatMap_pair_length]
  simp [List.length_range]
  omega

lemma flatMap_pair_getD (f g : ℕ → ℝ) (l : List ℕ) (k : ℕ)
    (hk : k < l.length) :
    (l.flatMap (fun j => [f j, g j])).getD (2 * k) 0 = f (l.getD k 0)
    ∧ (l.flatMap (fun j => [f j, g j])).getD (2 * k + 1) 0 = g (l.getD k 0) := by
  induction l generalizing k with
  | nil => exact absurd hk (by simp)
  | cons a rest ih =>
    rw [List.flatMap_cons]
    cases k with
    | zero => exact ⟨rfl, rfl⟩
    | succ k =>
      have harith : 2 * (k + 1) = (2 * k + 1) + 1 := by omega
      rw [harith]
      have hk2 : k < rest.length := by simpa using hk
      refine ⟨?_, ?_⟩
      · show ((f a :: g a :: rest.flatMap (fun j => [f j, g j]))).getD
          ((2 * k + 1) + 1) 0 = _
        rw [List.getD_cons_succ, List.getD_cons_succ]
        exact (ih k hk2).1
      · show ((f a :: g a :: rest.flatMap (fun j => [f j, g j]))).getD
          ((2 * k + 1) + 1 + 1) 0 = _
        rw [List.getD_cons_succ, List.getD_cons_succ]
        exact (ih k hk2).2

lemma range_getD (n k : ℕ) (hk : k < n) : (List.range n).getD k 0 = k := by
  rw [List.getD_eq_getElem?_getD,
    List.getElem?_eq_getElem (by simpa using hk)]
  simp [List.getElem_range]

lemma hBasisList_entries (order : ℕ) (t : ℝ) (k : ℕ) (hk : k < order) :
    (hBasisList order t).getD (2 * k + 2) 0 =
      Real.cos (2 * Real.pi * (k + 1) * t)
    ∧ (hBasisList order t).getD (2 * k + 3) 0 =
      Real.sin (2 * Real.pi * (k + 1) * t) := by
  have hmem : k < (List.range order).length := by simpa using hk
  have h := flatMap_pair_getD
    (fun j => Real.cos (2 * Real.pi * (j + 1) * t))
    (fun j => Real.sin (2 * Real.pi * (j + 1) * t))
    (List.range order) k hmem
  rw [range_getD order k hk] at h
  have e1 : hBasisList order t =
      1 :: t :: (List.range order).flatMap
        (fun j => [Real.cos (2 * Real.pi * (j + 1) * t),
                   Real.sin (2 * Real.pi * (j + 1) * t)]) := rfl
  constructor
  · rw [e1, show 2 * k + 2 = (2 * k + 1) + 1 from by omega,
      List.getD_cons_succ, List.getD_cons_succ]
    exact h.1
  · rw [e1, show 2 * k + 3 = ((2 * k + 1) + 1) + 1 from by omega,
      List.getD_cons_succ, List.getD_cons_succ]
    exact h.2

lemma observations_cons {B P : Type} (f : HFrame B P)
    (fs : List (HFrame B P)) (ref : ℝ) (b : B) (p : P) :
    observations (f :: fs) ref b p =
      (match f.val b p with
       | some v => (f.t - ref, v) :: observations fs ref b p
       | none => observations fs ref b p) := by
  cases hv : f.val b p <;> simp [observations, List.filterMap_cons, hv]

lemma sum_map_eq_sum_get {α : Type} (l : List α) (f : α → ℝ) :
    (l.map f).sum = ∑ i : Fin l.length, f (l.get i) := by
  conv_lhs => rw [← List.ofFn_get l]
  rw [List.map_ofFn, List.sum_ofFn]
  rfl

lemma normalMatrix_eq_normal (order : ℕ) (obs : List (ℝ × ℝ)) :
    normalMatrix order obs =
      (designMatrix order (fun i : Fin obs.length => (obs.get i).1))ᵀ *
        designMatrix order (fun i : Fin obs.length => (obs.get i).1) := by
  ext j k
  rw [Matrix.mul_apply]
  simp only [normalMatrix, Matrix.of_apply, designMatrix,
    Matrix.transpose_apply]
  rw [sum_map_eq_sum_get]

lemma momentVector_eq_mulVec (order : ℕ) (obs : List (ℝ × ℝ)) :
    momentVector order obs =
      (designMatrix order (fun i : Fin obs.length =>
        (obs.get i).1))ᵀ.mulVec (fun i => (obs.get i).2) := by
  funext j
  simp only [momentVector, Matrix.mulVec, Matrix.dotProduct, designMatrix,
    Matrix.transpose_apply, Matrix.of_apply]
  rw [sum_map_eq_sum_get]

lemma fitPixel_sol_eq_olsFit (order : ℕ) (obs : List (ℝ × ℝ)) :
    (normalMatrix order obs)⁻¹.mulVec (momentVector order obs) =
      olsFit (designMatrix order (fun i : Fin obs.length => (obs.get i).1))
        (fun i => (obs.get i).2) := by
  rw [olsFit, normalMatrix_eq_normal, momentVector_eq_mulVec]

lemma fitPixel_length {B P : Type} (order : ℕ) (ref : ℝ) (b : B)
    (frames : List (HFrame B P)) (p : P) (c : List ℝ)
    (hc : fitPixel order ref b frames p = some c) :
    c.length = 2 * order + 2 := by
  unfold fitPixel at hc
  by_cases h1 : (observations frames ref b p).length < 2 * order + 2
  · rw [if_pos h1] at hc
    exact absurd hc (by simp)
  · rw [if_neg h1] at hc
    by_cases h2 : IsUnit (normalMatrix order
        (observations frames ref b p)).det
    · rw [if_pos h2, Option.some.injEq] at hc
      rw [← hc, List.length_ofFn]
    · rw [if_neg h2] at hc
      exact absurd hc (by simp)

/-- C2: the per-observation design vector is
`[1, t, cos(2 pi 1 t), sin(2 pi 1 t), ..., cos(2 pi order t),
sin(2 pi order t)]` of length `2 * order + 2`, the time axis is the
continuous difference `timestamp - reference_date` in fractional years,
and the fitted coefficient vector stores exactly `2 * order + 2`
coefficients in basis order. -/
theorem harmonic_design_and_coeffs (order : ℕ) (t : ℝ) (hord : 1 ≤ order) :
    ((hBasisList order t).length = 2 * order + 2)
    ∧ (hBasisList order t).getD 0 0 = 1
    ∧ (hBasisList order t).getD 1 0 = t
    ∧ (∀ k : ℕ, k < order →
        (hBasisList order t).getD (2 * k + 2) 0 =
          Real.cos (2 * Real.pi * (k + 1) * t)
        ∧ (hBasisList order t).getD (2 * k + 3) 0 =
          Real.sin (2 * Real.pi * (k + 1) * t))
    ∧ (∀ (B P : Type) (ref : ℝ) (b : B) (frames : List (HFrame B P))
        (p : P) (c : List ℝ), fitPixel order ref b frames p = some c →
          c.length = 2 * order + 2)
    ∧ ∀ (B P : Type) (f : HFrame B P) (fs : List (HFrame B P)) (ref : ℝ)
        (b : B) (p : P) (v : ℝ), f.val b p = some v →
        observations (f :: fs) ref b p =
          (f.t - ref, v) :: observations fs ref b p := by
  refine ⟨hBasisList_length order t, rfl, rfl,
    fun k hk => hBasisList_entries order t k hk,
    fun B P ref b frames p c hc => fitPixel_length order ref b frames p c hc,
    ?_⟩
  intro B P f fs ref b p v hv
  rw [observations_cons, hv]

/-- C2 witness: at order 1 and time 0 the design vector has length 4 and
the expected entries, a successful fit at the quarterly fixture stores 4
coefficients, and a valid observation contributes its continuous time
offset. -/
theorem harmonic_design_and_coeffs_witness :
    ((hBasisList 1 0).length = 2 * 1 + 2)
    ∧ (hBasisList 1 0).getD 2 0 = Real.cos (2 * Real.pi * ((0 : ℕ) + 1) * 0)
    ∧ (hBasisList 1 0).getD 3 0 = Real.sin (2 * Real.pi * ((0 : ℕ) + 1) * 0)
    ∧ observations (⟨0, fun _ _ => some 1⟩ :: hfrW.tail) 0 () () =
        ((0 : ℝ) - 0, (1 : ℝ)) :: observations hfrW.tail 0 () () := by
  have h := harmonic_design_and_coeffs 1 0 (le_refl 1)
  refine ⟨h.1, (h.2.2.2.1 0 (by norm_num)).1, (h.2.2.2.1 0 (by norm_num)).2, ?_⟩
  exact h.2.2.2.2.2 Unit Unit ⟨0, fun _ _ => some 1⟩ hfrW.tail 0 () () 1 rfl

lemma hBasis_one_zero (t : ℝ) : hBasis 1 t 0 = 1 := rfl

lemma hBasis_one_one (t : ℝ) : hBasis 1 t 1 = t := rfl

lemma hBasis_one_two (t : ℝ) : hBasis 1 t 2 = Real.cos (2 * Real.pi * t) := by
  show Real.cos (2 * Real.pi * ((0 : ℕ) + 1) * t) = _
  norm_num

lemma hBasis_one_three (t : ℝ) : hBasis 1 t 3 = Real.sin (2 * Real.pi * t) := by
  show Real.sin (2 * Real.pi * ((0 : ℕ) + 1) * t) = _
  norm_num

lemma gen_eq_mulVec {m : ℕ} (times : Fin m → ℝ) (c0 c1 a1 b1 : ℝ) :
    (fun i => c0 + c1 * times i + a1 * Real.cos (2 * Real.pi * times i)
      + b1 * Real.sin (2 * Real.pi * times i)) =
      (designMatrix 1 times).mulVec ![c0, c1, a1, b1] := by
  funext i
  have hexp : (designMatrix 1 times).mulVec ![c0, c1, a1, b1] i =
      hBasis 1 (times i) 0 * c0 + hBasis 1 (times i) 1 * c1
      + hBasis 1 (times i) 2 * a1 + hBasis 1 (times i) 3 * b1 := by
    have h4 := Fin.sum_univ_four
      (fun j : Fin 4 => designMatrix 1 times i j * ![c0, c1, a1, b1] j)
    simp only [Matrix.cons_val_zero, Matrix.cons_val_one,
      Matrix.cons_val_two, Matrix.cons_val_three, Matrix.head_cons,
      Matrix.vecTail, Matrix.vecHead, Function.comp] at h4
    exact h4
  rw [hexp, hBasis_one_zero, hBasis_one_one, hBasis_one_two, hBasis_one_three]
  ring

lemma olsFit_exact {m n : ℕ} (X : Matrix (Fin m) (Fin n) ℝ) (c : Fin n → ℝ)
    (hnd : IsUnit (Xᵀ * X).det) : olsFit X (X.mulVec c) = c := by
  unfold olsFit
  rw [Matrix.mulVec_mulVec, Matrix.mulVec_mulVec,
    Matrix.mul_assoc ((Xᵀ * X)⁻¹) Xᵀ X,
    Matrix.nonsing_inv_mul _ hnd, Matrix.one_mulVec]

lemma olsFit_normal {m n : ℕ} (X : Matrix (Fin m) (Fin n) ℝ) (y : Fin m → ℝ)
    (hnd : IsUnit (Xᵀ * X).det) :
    Xᵀ.mulVec (y - X.mulVec (olsFit X y)) = 0 := by
  rw [Matrix.mulVec_sub]
  unfold olsFit
  rw [Matrix.mulVec_mulVec, Matrix.mulVec_mulVec,
    Matrix.mul_nonsing_inv _ hnd, Matrix.one_mulVec, sub_self]

lemma rss_eq_dot {m n : ℕ} (X : Matrix (Fin m) (Fin n) ℝ) (y : Fin m → ℝ)
    (c : Fin n → ℝ) :
    rss X y c = Matrix.dotProduct (y - X.mulVec c) (y - X.mulVec c) := by
  unfold rss Matrix.dotProduct
  refine Finset.sum_congr rfl fun i _ => ?_
  simp [pow_two]

lemma olsFit_minimizes {m n : ℕ} (X : Matrix (Fin m) (Fin n) ℝ)
    (y : Fin m → ℝ) (hnd : IsUnit (Xᵀ * X).det) (c : Fin n → ℝ) :
    rss X y (olsFit X y) ≤ rss X y c := by
  have hdecomp : y - X.mulVec c =
      (y - X.mulVec (olsFit X y)) + X.mulVec (olsFit X y - c) := by
    rw [Matrix.mulVec_sub]
    abel
  have horth : Matrix.dotProduct (y - X.mulVec (olsFit X y))
      (X.mulVec (olsFit X y - c)) = 0 := by
    rw [Matrix.dotProduct_mulVec, ← Matrix.mulVec_transpose,
      olsFit_normal X y hnd, Matrix.zero_dotProduct]
  have hnn : 0 ≤ Matrix.dotProduct (X.mulVec (olsFit X y - c))
      (X.mulVec (olsFit X y - c)) :=
    Finset.sum_nonneg fun i _ => mul_self_nonneg _
  rw [rss_eq_dot, rss_eq_dot, hdecomp, Matrix.add_dotProduct,
    Matrix.dotProduct_add, Matrix.dotProduct_add, horth,
    Matrix.dotProduct_comm (X.mulVec (olsFit X y - c))
      (y - X.mulVec (olsFit X y)), horth]
  linarith

/-- C4: for a pixel whose observed values are generated exactly by
`c0 + c1 t + a1 cos(2 pi t) + b1 sin(2 pi t)`, an order-1 fit over at
least 4 non-degenerate time samples recovers `(c0, c1, a1, b1)` exactly,
and the fit is the ordinary-least-squares minimizer of the per-pixel sum
of squared residuals. -/
theorem harmonic_ols_recovery {m : ℕ} (times : Fin m → ℝ)
    (c0 c1 a1 b1 : ℝ) (hm : 4 ≤ m)
    (hnd : IsUnit ((designMatrix 1 times)ᵀ * designMatrix 1 times).det) :
    olsFit (designMatrix 1 times)
        (fun i => c0 + c1 * times i + a1 * Real.cos (2 * Real.pi * times i)
          + b1 * Real.sin (2 * Real.pi * times i)) = ![c0, c1, a1, b1]
    ∧ ∀ c : Fin 4 → ℝ,
        rss (designMatrix 1 times)
          (fun i => c0 + c1 * times i + a1 * Real.cos (2 * Real.pi * times i)
            + b1 * Real.sin (2 * Real.pi * times i))
          (olsFit (designMatrix 1 times)
            (fun i => c0 + c1 * times i
              + a1 * Real.cos (2 * Real.pi * times i)
              + b1 * Real.sin (2 * Real.pi * times i))) ≤
        rss (designMatrix 1 times)
          (fun i => c0 + c1 * times i + a1 * Real.cos (2 * Real.pi * times i)
            + b1 * Real.sin (2 * Real.pi * times i)) c := by
  constructor
  · rw [gen_eq_mulVec]
    exact olsFit_exact _ _ hnd
  · intro c
    exact olsFit_minimizes _ _ hnd c

/-- C4 witness: at the four concrete quarterly sample times the design
matrix is non-degenerate, and the order-1 fit of the exactly generated
series with coefficients `(1, 2, 3, 4)` returns exactly `(1, 2, 3, 4)`. -/
theorem harmonic_ols_recovery_witness :
    olsFit (designMatrix 1 tms4)
        (fun i => 1 + 2 * tms4 i + 3 * Real.cos (2 * Real.pi * tms4 i)
          + 4 * Real.sin (2 * Real.pi * tms4 i)) = ![1, 2, 3, 4] := by
  have hX : designMatrix 1 tms4 =
      Matrix.of ![![1, -(1 / 2), -1, 0], ![1, -(1 / 4), 0, -1],
        ![1, 0, 1, 0], ![1, 1 / 4, 0, 1]] := by
    ext i j
    fin_cases i <;> fin_cases j
    · show hBasis 1 (-(1 / 2)) 0 = 1
      exact hBasis_one_zero _
    · show hBasis 1 (-(1 / 2)) 1 = (-(1 / 2) : ℝ)
      exact hBasis_one_one _
    · show hBasis 1 (-(1 / 2)) 2 = -1
      rw [hBasis_one_two,
        show 2 * Real.pi * (-(1 / 2) : ℝ) = -Real.pi from by ring,
        Real.cos_neg, Real.cos_pi]
    · show hBasis 1 (-(1 / 2)) 3 = 0
      rw [hBasis_one_three,
        show 2 * Real.pi * (-(1 / 2) : ℝ) = -Real.pi from by ring,
        Real.sin_neg, Real.sin_pi, neg_zero]
    · show hBasis 1 (-(1 / 4)) 0 = 1
      exact hBasis_one_zero _
    · show hBasis 1 (-(1 / 4)) 1 = (-(1 / 4) : ℝ)
      exact hBasis_one_one _
    · show hBasis 1 (-(1 / 4)) 2 = 0
      rw [hBasis_one_two,
        show 2 * Real.pi * (-(1 / 4) : ℝ) = -(Real.pi / 2) from by ring,
        Real.cos_neg, Real.cos_pi_div_two]
    · show hBasis 1 (-(1 / 4)) 3 = -1
      rw [hBasis_one_three,
        show 2 * Real.pi * (-(1 / 4) : ℝ) = -(Real.pi / 2) from by ring,
        Real.sin_neg, Real.sin_pi_div_two]
    · show hBasis 1 ((0 : ℝ)) 0 = 1
      exact hBasis_one_zero _
    · show hBasis 1 ((0 : ℝ)) 1 = (0 : ℝ)
      exact hBasis_one_one _
    · show hBasis 1 (0 : ℝ) 2 = 1
      rw [hBasis_one_two, mul_zero, Real.cos_zero]
    · show hBasis 1 (0 : ℝ) 3 = 0
      rw [hBasis_one_three, mul_zero, Real.sin_zero]
    · show hBasis 1 ((1 : ℝ) / 4) 0 = 1
      exact hBasis_one_zero _
    · show hBasis 1 ((1 : ℝ) / 4) 1 = ((1 : ℝ) / 4)
      exact hBasis_one_one _
    · show hBasis 1 ((1 : ℝ) / 4) 2 = 0
      rw [hBasis_one_two,
        show 2 * Real.pi * ((1 : ℝ) / 4) = Real.pi / 2 from by ring,
        Real.cos_pi_div_two]
    · show hBasis 1 ((1 : ℝ) / 4) 3 = 1
      rw [hBasis_one_three,
        show 2 * Real.pi * ((1 : ℝ) / 4) = Real.pi / 2 from by ring,
        Real.sin_pi_div_two]
  have hnd : IsUnit ((designMatrix 1 tms4)ᵀ * designMatrix 1 tms4).det := by
    rw [hX, Matrix.det_mul, Matrix.det_transpose]
    have hdet : (Matrix.of ![![1, -(1 / 2), -1, 0], ![1, -(1 / 4), 0, -1],
        ![(1 : ℝ), 0, 1, 0], ![1, 1 / 4, 0, 1]]).det = 1 := by
      simp [Matrix.det_succ_row_zero, Fin.sum_univ_succ, Fin.succAbove,
        Fin.lt_def]
      norm_num
    rw [hdet, mul_one]
    exact isUnit_one
  exact (harmonic_ols_recovery tms4 1 2 3 4 (by norm_num) hnd).1

/-- C6: a pixel with fewer valid observations than the `2 * order + 2`
coefficients gets an invalid (`none`) coefficient vector; a pixel whose
normal matrix is singular (numerical degeneracy) also gets `none`
instead of a silently degenerate solution; a pixel with enough
observations and a non-degenerate normal matrix still gets a
full-length coefficient vector; and the fit does not abort: the whole
raster is still produced. -/
theorem insufficient_observations_invalid {B P : Type} (order : ℕ)
    (ref : ℝ) (b : B) (frames : List (HFrame B P)) (p : P)
    (h : (observations frames ref b p).length < 2 * order + 2) :
    fitPixel order ref b frames p = none
    ∧ (∀ q : P, 2 * order + 2 ≤ (observations frames ref b q).length →
        IsUnit (normalMatrix order (observations frames ref b q)).det →
        ∃ c, fitPixel order ref b frames q = some c
          ∧ c.length = 2 * order + 2)
    ∧ (∀ q : P,
        ¬ IsUnit (normalMatrix order (observations frames ref b q)).det →
        fitPixel order ref b frames q = none)
    ∧ (order ≠ 0 → getHarmonicCoeffs order ref b frames =
        .ok (fun q => fitPixel order ref b frames q)) := by
  refine ⟨?_, ?_, ?_, ?_⟩
  · unfold fitPixel
    rw [if_pos h]
  · intro q hq hu
    have hfit : fitPixel order ref b frames q = some (List.ofFn
        ((normalMatrix order (observations frames ref b q))⁻¹.mulVec
          (momentVector order (observations frames ref b q)))) := by
      unfold fitPixel
      rw [if_neg (not_lt.mpr hq), if_pos hu]
    exact ⟨_, hfit, List.length_ofFn _⟩
  · intro q hu
    unfold fitPixel
    by_cases h1 : (observations frames ref b q).length < 2 * order + 2
    · rw [if_pos h1]
    · rw [if_neg h1, if_neg hu]
  · intro hord
    unfold getHarmonicCoeffs
    rw [if_neg hord]

/-- C6 witness: on the two-pixel fixture the always-invalid pixel has a
degenerate (all-zero) normal matrix and gets `none`, the fully observed
pixel has an invertible normal matrix and gets a coefficient vector,
and the coefficient raster is still produced as a whole. -/
theorem insufficient_observations_invalid_witness :
    fitPixel 1 0 () hfrBoolW true = none
    ∧ (fitPixel 1 0 () hfrBoolW false).isSome = true
    ∧ getHarmonicCoeffs 1 0 () hfrBoolW =
        .ok (fun q => fitPixel 1 0 () hfrBoolW q) := by
  have h := insufficient_observations_invalid 1 0 () hfrBoolW true
    (by simp [observations, hfrBoolW])
  have hcA : Real.cos (2 * Real.pi * (-(1 / 2) : ℝ)) = -1 := by
    rw [show 2 * Real.pi * (-(1 / 2) : ℝ) = -Real.pi from by ring,
      Real.cos_neg, Real.cos_pi]
  have hsA : Real.sin (2 * Real.pi * (-(1 / 2) : ℝ)) = 0 := by
    rw [show 2 * Real.pi * (-(1 / 2) : ℝ) = -Real.pi from by ring,
      Real.sin_neg, Real.sin_pi, neg_zero]
  have hcA2 : Real.cos (2 * Real.pi * ((1 : ℝ) / 2)) = -1 := by
    rw [show 2 * Real.pi * ((1 : ℝ) / 2) = Real.pi from by ring, Real.cos_pi]
  have hsA2 : Real.sin (2 * Real.pi * ((1 : ℝ) / 2)) = 0 := by
    rw [show 2 * Real.pi * ((1 : ℝ) / 2) = Real.pi from by ring, Real.sin_pi]
  have hcB : Real.cos (2 * Real.pi * (-(1 / 4) : ℝ)) = 0 := by
    rw [show 2 * Real.pi * (-(1 / 4) : ℝ) = -(Real.pi / 2) from by ring,
      Real.cos_neg, Real.cos_pi_div_two]
  have hsB : Real.sin (2 * Real.pi * (-(1 / 4) : ℝ)) = -1 := by
    rw [show 2 * Real.pi * (-(1 / 4) : ℝ) = -(Real.pi / 2) from by ring,
      Real.sin_neg, Real.sin_pi_div_two]
  have hcC : Real.cos (2 * Real.pi * (0 : ℝ)) = 1 := by
    rw [mul_zero, Real.cos_zero]
  have hsC : Real.sin (2 * Real.pi * (0 : ℝ)) = 0 := by
    rw [mul_zero, Real.sin_zero]
  have hcD : Real.cos (2 * Real.pi * ((1 : ℝ) / 4)) = 0 := by
    rw [show 2 * Real.pi * ((1 : ℝ) / 4) = Real.pi / 2 from by ring,
      Real.cos_pi_div_two]
  have hsD : Real.sin (2 * Real.pi * ((1 : ℝ) / 4)) = 1 := by
    rw [show 2 * Real.pi * ((1 : ℝ) / 4) = Real.pi / 2 from by ring,
      Real.sin_pi_div_two]
  have hobs : observations hfrBoolW 0 () false =
      [((-(1 / 2) : ℝ), (1 : ℝ)), (-(1 / 4), 2), (0, 3), (1 / 4, 4)] := by
    norm_num [observations, hfrBoolW, List.filterMap_cons]
  have hN : normalMatrix 1
      [((-(1 / 2) : ℝ), (1 : ℝ)), (-(1 / 4), 2), (0, 3), (1 / 4, 4)] =
      Matrix.of ![![4, -(1 / 2), 0, 0], ![-(1 / 2), 3 / 8, 1 / 2, 1 / 2],
        ![0, 1 / 2, 2, 0], ![0, 1 / 2, 0, 2]] := by
    ext j k
    fin_cases j <;> fin_cases k
    · show (List.map (fun o => hBasis 1 o.1 0 * hBasis 1 o.1 0)
          [((-(1 / 2) : ℝ), (1 : ℝ)), (-(1 / 4), 2), (0, 3), (1 / 4, 4)]).sum = 4
      simp only [List.map_cons, List.map_nil, List.sum_cons, List.sum_nil,
        hBasis_one_zero, hBasis_one_one, hBasis_one_two, hBasis_one_three]
      norm_num [hcA, hsA, hcA2, hsA2, hcB, hsB, hcC, hsC, hcD, hsD]
    · show (List.map (fun o => hBasis 1 o.1 0 * hBasis 1 o.1 1)
          [((-(1 / 2) : ℝ), (1 : ℝ)), (-(1 / 4), 2), (0, 3), (1 / 4, 4)]).sum = -(1 / 2)
      simp only [List.map_cons, List.map_nil, List.sum_cons, List.sum_nil,
        hBasis_one_zero, hBasis_one_one, hBasis_one_two, hBasis_one_three]
      norm_num [hcA, hsA, hcA2, hsA2, hcB, hsB, hcC, hsC, hcD, hsD]
    · show (List.map (fun o => hBasis 1 o.1 0 * hBasis 1 o.1 2)
          [((-(1 / 2) : ℝ), (1 : ℝ)), (-(1 / 4), 2), (0, 3), (1 / 4, 4)]).sum = 0
      simp only [List.map_cons, List.map_nil, List.sum_cons, List.sum_nil,
        hBasis_one_zero, hBasis_one_one, hBasis_one_two, hBasis_one_three]
      norm_num [hcA, hsA, hcA2, hsA2, hcB, hsB, hcC, hsC, hcD, hsD]
    · show (List.map (fun o => hBasis 1 o.1 0 * hBasis 1 o.1 3)
          [((-(1 / 2) : ℝ), (1 : ℝ)), (-(1 / 4), 2), (0, 3), (1 / 4, 4)]).sum = 0
      simp only [List.map_cons, List.map_nil, List.sum_cons, List.sum_nil,
        hBasis_one_zero, hBasis_one_one, hBasis_one_two, hBasis_one_three]
      norm_num [hcA, hsA, hcA2, hsA2, hcB, hsB, hcC, hsC, hcD, hsD]
    · show (List.map (fun o => hBasis 1 o.1 1 * hBasis 1 o.1 0)
          [((-(1 / 2) : ℝ), (1 : ℝ)), (-(1 / 4), 2), (0, 3), (1 / 4, 4)]).sum = -(1 / 2)
      simp only [List.map_cons, List.map_nil, List.sum_cons, List.sum_nil,
        hBasis_one_zero, hBasis_one_one, hBasis_one_two, hBasis_one_three]
      norm_num [hcA, hsA, hcA2, hsA2, hcB, hsB, hcC, hsC, hcD, hsD]
    · show (List.map (fun o => hBasis 1 o.1 1 * hBasis 1 o.1 1)
          [((-(1 / 2) : ℝ), (1 : ℝ)), (-(1 / 4), 2), (0, 3), (1 / 4, 4)]).sum = 3 / 8
      simp only [List.map_cons, List.map_nil, List.sum_cons, List.sum_nil,
        hBasis_one_zero, hBasis_one_one, hBasis_one_two, hBasis_one_three]
      norm_num [hcA, hsA, hcA2, hsA2, hcB, hsB, hcC, hsC, hcD, hsD]
    · show (List.map (fun o => hBasis 1 o.1 1 * hBasis 1 o.1 2)
          [((-(1 / 2) : ℝ), (1 : ℝ)), (-(1 / 4), 2), (0, 3), (1 / 4, 4)]).sum = 1 / 2
      simp only [List.map_cons, List.map_nil, List.sum_cons, List.sum_nil,
        hBasis_one_zero, hBasis_one_one, hBasis_one_two, hBasis_one_three]
      norm_num [hcA, hsA, hcA2, hsA2, hcB, hsB, hcC, hsC, hcD, hsD]
    · show (List.map (fun o => hBasis 1 o.1 1 * hBasis 1 o.1 3)
          [((-(1 / 2) : ℝ), (1 : ℝ)), (-(1 / 4), 2), (0, 3), (1 / 4, 4)]).sum = 1 / 2
      simp only [List.map_cons, List.map_nil, List.sum_cons, List.sum_nil,
        hBasis_one_zero, hBasis_one_one, hBasis_one_two, hBasis_one_three]
      norm_num [hcA, hsA, hcA2, hsA2, hcB, hsB, hcC, hsC, hcD, hsD]
    · show (List.map (fun o => hBasis 1 o.1 2 * hBasis 1 o.1 0)
          [((-(1 / 2) : ℝ), (1 : ℝ)), (-(1 / 4), 2), (0, 3), (1 / 4, 4)]).sum = 0
      simp only [List.map_cons, List.map_nil, List.sum_cons, List.sum_nil,
        hBasis_one_zero, hBasis_one_one, hBasis_one_two, hBasis_one_three]
      norm_num [hcA, hsA, hcA2, hsA2, hcB, hsB, hcC, hsC, hcD, hsD]
    · show (List.map (fun o => hBasis 1 o.1 2 * hBasis 1 o.1 1)
          [((-(1 / 2) : ℝ), (1 : ℝ)), (-(1 / 4), 2), (0, 3), (1 / 4, 4)]).sum = 1 / 2
      simp only [List.map_cons, List.map_nil, List.sum_cons, List.sum_nil,
        hBasis_one_zero, hBasis_one_one, hBasis_one_two, hBasis_one_three]
      norm_num [hcA, hsA, hcA2, hsA2, hcB, hsB, hcC, hsC, hcD, hsD]
    · show (List.map (fun o => hBasis 1 o.1 2 * hBasis 1 o.1 2)
          [((-(1 / 2) : ℝ), (1 : ℝ)), (-(1 / 4), 2), (0, 3), (1 / 4, 4)]).sum = 2
      simp only [List.map_cons, List.map_nil, List.sum_cons, List.sum_nil,
        hBasis_one_zero, hBasis_one_one, hBasis_one_two, hBasis_one_three]
      norm_num [hcA, hsA, hcA2, hsA2, hcB, hsB, hcC, hsC, hcD, hsD]
    · show (List.map (fun o => hBasis 1 o.1 2 * hBasis 1 o.1 3)
          [((-(1 / 2) : ℝ), (1 : ℝ)), (-(1 / 4), 2), (0, 3), (1 / 4, 4)]).sum = 0
      simp only [List.map_cons, List.map_nil, List.sum_cons, List.sum_nil,
        hBasis_one_zero, hBasis_one_one, hBasis_one_two, hBasis_one_three]
      norm_num [hcA, hsA, hcA2, hsA2, hcB, hsB, hcC, hsC, hcD, hsD]
    · show (List.map (fun o => hBasis 1 o.1 3 * hBasis 1 o.1 0)
          [((-(1 / 2) : ℝ), (1 : ℝ)), (-(1 / 4), 2), (0, 3), (1 / 4, 4)]).sum = 0
      simp only [List.map_cons, List.map_nil, List.sum_cons, List.sum_nil,
        hBasis_one_zero, hBasis_one_one, hBasis_one_two, hBasis_one_three]
      norm_num [hcA, hsA, hcA2, hsA2, hcB, hsB, hcC, hsC, hcD, hsD]
    · show (List.map (fun o => hBasis 1 o.1 3 * hBasis 1 o.1 1)
          [((-(1 / 2) : ℝ), (1 : ℝ)), (-(1 / 4), 2), (0, 3), (1 / 4, 4)]).sum = 1 / 2
      simp only [List.map_cons, List.map_nil, List.sum_cons, List.sum_nil,
        hBasis_one_zero, hBasis_one_one, hBasis_one_two, hBasis_one_three]
      norm_num [hcA, hsA, hcA2, hsA2, hcB, hsB, hcC, hsC, hcD, hsD]
    · show (List.map (fun o => hBasis 1 o.1 3 * hBasis 1 o.1 2)
          [((-(1 / 2) : ℝ), (1 : ℝ)), (-(1 / 4), 2), (0, 3), (1 / 4, 4)]).sum = 0
      simp only [List.map_cons, List.map_nil, List.sum_cons, List.sum_nil,
        hBasis_one_zero, hBasis_one_one, hBasis_one_two, hBasis_one_three]
      norm_num [hcA, hsA, hcA2, hsA2, hcB, hsB, hcC, hsC, hcD, hsD]
    · show (List.map (fun o => hBasis 1 o.1 3 * hBasis 1 o.1 3)
          [((-(1 / 2) : ℝ), (1 : ℝ)), (-(1 / 4), 2), (0, 3), (1 / 4, 4)]).sum = 2
      simp only [List.map_cons, List.map_nil, List.sum_cons, List.sum_nil,
        hBasis_one_zero, hBasis_one_one, hBasis_one_two, hBasis_one_three]
      norm_num [hcA, hsA, hcA2, hsA2, hcB, hsB, hcC, hsC, hcD, hsD]
  have hu : IsUnit (normalMatrix 1 (observations hfrBoolW 0 () false)).det := by
    rw [hobs, hN]
    have hdet : (Matrix.of ![![(4 : ℝ), -(1 / 2), 0, 0],
        ![-(1 / 2), 3 / 8, 1 / 2, 1 / 2], ![0, 1 / 2, 2, 0],
        ![0, 1 / 2, 0, 2]]).det = 1 := by
      simp [Matrix.det_succ_row_zero, Fin.sum_univ_succ, Fin.succAbove,
        Fin.lt_def]
      norm_num
    rw [hdet]
    exact isUnit_one
  obtain ⟨c, hc, hlen⟩ :=
    h.2.1 false (by simp [observations, hfrBoolW]) hu
  have hNU : ¬ IsUnit (normalMatrix 1
      (observations hfrBoolW 0 () true)).det := by
    have hobs0 : observations hfrBoolW 0 () true = [] := by
      simp [observations, hfrBoolW]
    have hzero : normalMatrix 1 ([] : List (ℝ × ℝ)) = 0 := by
      ext j k
      simp [normalMatrix]
    rw [hobs0, hzero, Matrix.det_zero ⟨0⟩]
    simp [isUnit_iff_ne_zero]
  exact ⟨h.2.2.1 true hNU, by rw [hc]; rfl, h.2.2.2 one_ne_zero⟩

/-- C7: prediction is a pure function of the coefficients and the query
date: it does not depend on the stored observation collection or band,
and identical inputs give identical outputs. -/
theorem predict_pure_and_collection_independent {B P : Type}
    (s1 s2 : HRState B P) (coeffs : P → Option (List ℝ)) (d : ℝ)
    (href : s1.refDate = s2.refDate) (hord : s1.order = s2.order) :
    predictHR s1 coeffs d = predictHR s2 coeffs d
    ∧ ∀ (c2 : P → Option (List ℝ)) (d2 : ℝ), coeffs = c2 → d = d2 →
        predictHR s1 coeffs d = predictHR s1 c2 d2 := by
  refine ⟨?_, ?_⟩
  · unfold predictHR
    rw [href, hord]
  · rintro c2 d2 rfl rfl
    rfl

/-- C7 witness: two HarmonicRegression states holding different
collections but the same reference date and order predict identically
from the same coefficients. -/
theorem predict_pure_witness :
    predictHR ⟨hfrW, 0, (), 1⟩ (fun _ => some [1, 2, 3, 4]) 5 =
      predictHR ⟨hfrEmptyW, 0, (), 1⟩ (fun _ => some [1, 2, 3, 4]) 5 :=
  (predict_pure_and_collection_independent ⟨hfrW, 0, (), 1⟩
    ⟨hfrEmptyW, 0, (), 1⟩ (fun _ => some [1, 2, 3, 4]) 5 rfl rfl).1

/-- C8: the fitted-series operation is exactly the composition of fit
and predict: one output frame per input frame, same timestamps, and each
output pixel value is `predict` of the supplied coefficients at the
frame's own timestamp. -/
theorem fitted_is_fit_then_predict {B P : Type} [DecidableEq B]
    (s : HRState B P) (coeffs : P → Option (List ℝ)) :
    (getFittedHarmonics s coeffs).length = s.collection.length
    ∧ (getFittedHarmonics s coeffs).map HFrame.t = s.collection.map HFrame.t
    ∧ ∀ (i : ℕ) (p : P),
        ((getFittedHarmonics s coeffs)[i]?).map (fun f => f.val s.band p) =
          (s.collection[i]?).map
            (fun f => predictGrid s.order s.refDate coeffs f.t p) := by
  refine ⟨by simp [getFittedHarmonics], ?_, ?_⟩
  · unfold getFittedHarmonics
    rw [List.map_map]
    rfl
  · intro i p
    unfold getFittedHarmonics
    rw [List.getElem?_map, Option.map_map]
    cases s.collection[i]? with
    | none => rfl
    | some f => simp

/-- C9: non-positive interval or window, or an end date earlier than the
start date, make RegularTimeseries fail with InvalidParameter, and a
non-positive harmonic order makes the harmonic fit fail with
InvalidParameter, before any aggregation or fitting output is produced. -/
theorem invalid_parameter_rejected {B P C Q : Type}
    (start endd interval window : ℚ) (frames : List (Frame B P))
    (order : ℕ) (ref : ℝ) (b : C) (hframes : List (HFrame C Q))
    (hbad : interval ≤ 0 ∨ window ≤ 0 ∨ endd < start) (hord : order = 0) :
    regularTimeseriesOn start endd interval window frames =
      .error .invalidParameter
    ∧ getHarmonicCoeffs order ref b hframes = .error .invalidParameter := by
  constructor
  · unfold regularTimeseriesOn
    rw [if_pos hbad]
  · unfold getHarmonicCoeffs
    rw [if_pos hord]

/-- C9 witness: a negative interval is rejected by the compositing stage
and order 0 is rejected by the harmonic stage. -/
theorem invalid_parameter_rejected_witness :
    regularTimeseriesOn 0 1 (-1) 2 frW = .error .invalidParameter
    ∧ getHarmonicCoeffs 0 0 () hfrW = .error .invalidParameter :=
  invalid_parameter_rejected 0 1 (-1) 2 frW 0 0 () hfrW
    (Or.inl (by norm_num)) rfl

lemma targetDates_mem_bounds {a z interval : ℚ} (hi : 0 < interval)
    (haz : a ≤ z) (d : ℚ) (hd : d ∈ targetDates a z interval) :
    a ≤ d ∧ d ≤ z := by
  rw [targetDates] at hd
  obtain ⟨k, hk, rfl⟩ := List.mem_map.mp hd
  rw [List.mem_range] at hk
  constructor
  · have hnn : 0 ≤ (k : ℚ) * interval := mul_nonneg (by positivity) hi.le
    linarith
  · have hkle : k ≤ (⌊(z - a) / interval⌋).toNat := by
      unfold nTargets at hk
      omega
    have hfl : (0 : ℤ) ≤ ⌊(z - a) / interval⌋ :=
      Int.floor_nonneg.mpr (div_nonneg (by linarith) hi.le)
    have hk2 : (k : ℤ) ≤ ⌊(z - a) / interval⌋ := by
      have hcast := Int.ofNat_le.mpr hkle
      rwa [Int.toNat_of_nonneg hfl] at hcast
    have hq : (k : ℚ) ≤ (z - a) / interval := by
      exact_mod_cast Int.le_floor.mp hk2
    have hmul := mul_le_mul_of_nonneg_right hq hi.le
    rw [div_mul_cancel₀ _ hi.ne'] at hmul
    linarith

/-- C10: the public interface derives the target range from the
collection itself - with a nonempty collection the range runs from the
earliest to the latest frame timestamp, the first target date is the
earliest timestamp, and every target date stays within those derived
bounds. -/
theorem derived_target_range {B P : Type} (frames : List (Frame B P))
    (interval window a z : ℚ)
    (hmin : (frames.map Frame.t).min? = some a)
    (hmax : (frames.map Frame.t).max? = some z)
    (hi : 0 < interval) (hw : 0 < window) :
    getRegularTimeseries frames interval window =
      .ok ((targetDates a z interval).map (composite frames window))
    ∧ (∀ f ∈ frames, a ≤ f.t ∧ f.t ≤ z)
    ∧ ((targetDates a z interval).map (composite frames window)).head?.map
        Frame.t = some a
    ∧ ∀ d ∈ targetDates a z interval, a ≤ d ∧ d ≤ z := by
  haveI : Std.Antisymm (fun (x y : ℚ) => x ≤ y) :=
    ⟨fun h1 h2 => le_antisymm h1 h2⟩
  have hmin2 := (List.min?_eq_some_iff (fun q => le_refl q)
    (fun q r => min_choice q r) (fun q r u => le_min_iff)).mp hmin
  have hmax2 := (List.max?_eq_some_iff (fun q => le_refl q)
    (fun q r => max_choice q r) (fun q r u => max_le_iff)).mp hmax
  have hbounds : ∀ f ∈ frames, a ≤ f.t ∧ f.t ≤ z := fun f hf =>
    ⟨hmin2.2 f.t (List.mem_map_of_mem Frame.t hf),
     hmax2.2 f.t (List.mem_map_of_mem Frame.t hf)⟩
  have haz : a ≤ z := hmax2.2 a hmin2.1
  refine ⟨?_, hbounds, ?_, fun d hd => targetDates_mem_bounds hi haz d hd⟩
  · unfold getRegularTimeseries
    rw [hmin, hmax]
    exact regularTimeseriesOn_ok frames hi hw haz
  · have hhead : (targetDates a z interval).head? = some a := by
      rw [targetDates, nTargets, List.range_succ_eq_map, List.map_cons,
        List.head?_cons]
      norm_num
    rw [List.head?_map, hhead]
    rfl

/-- C10 witness: on a concrete three-frame collection with timestamps
4, 0 and 7, the derived range is [0, 7], the output starts at target
date 0, and every frame timestamp lies inside the derived range. -/
theorem derived_target_range_witness :
    getRegularTimeseries frW 3 2 =
      .ok ((targetDates 0 7 3).map (composite frW 2))
    ∧ ((targetDates 0 7 3).map (composite frW 2)).head?.map Frame.t = some 0
    ∧ ((0 : ℚ) ≤ (4 : ℚ) ∧ (4 : ℚ) ≤ 7) := by
  have h := derived_target_range frW 3 2 0 7
    (by norm_num [frW, List.min?, min_def])
    (by norm_num [frW, List.max?, max_def])
    (by norm_num) (by norm_num)
  refine ⟨h.1, h.2.2.1, ?_⟩
  exact h.2.1 ⟨4, fun _ _ => some 1⟩ (List.mem_cons_self _ _)

end Geeagri
